import Mathlib

/-!
Verification of `run_full.py` — the Gastown test-cycle orchestrator.

This file shallowly embeds the parts of the program that the
specification's testable properties are about: the `Report` writer
(including its table renderer and the guaranteed `close` on scope exit),
the phase sequencer in `main`, the completion-poll loop of
`phase6_wait_convoy`, the recommendation derivation of
`phase8_recommendations`, the telemetry query helpers `vm_query` and
`vl_count`, and the `convoy_landed` predicate.

External collaborators (the HTTP transport, `json.loads`, subprocesses)
are modelled as explicit parameters: an `Option String` for a transport
result (`none` = unreachable), a `String → Except String JValue`
oracle for the JSON parser, and plain values for subprocess exit codes
and outputs.  Python exceptions are modelled with `Except`; a caught
exception is a consumed `.error` value.
-/

/-! ## Python string primitives used by the script -/

/-- Python `sep.join(parts)`. -/
def pyJoin (sep : String) : List String → String
  | [] => ""
  | [x] => x
  | x :: xs => x ++ sep ++ pyJoin sep xs

/-- Python `str.ljust(w)`: pad on the right with spaces up to width `w`
(no change when the string is already at least that wide). -/
def pyLjust (s : String) (w : Nat) : String :=
  s ++ String.mk (List.replicate (w - s.length) ' ')

/-- The characters Python's `str.strip()` / `str.splitlines()` treat as
whitespace (the ASCII ones; the script only handles ASCII payloads). -/
def isPySpace (c : Char) : Bool :=
  c = ' ' || c = '\t' || c = '\n' || c = '\r' || c = Char.ofNat 11 || c = Char.ofNat 12

/-- Python `str.strip()`: drop leading and trailing whitespace. -/
def pyStrip (s : String) : String :=
  String.mk (((s.data.dropWhile isPySpace).reverse.dropWhile isPySpace).reverse)

/-- Python `str.rstrip()`: drop trailing whitespace. -/
def pyRstrip (s : String) : String :=
  String.mk ((s.data.reverse.dropWhile isPySpace).reverse)

/-- Helper for `pySplitlines`: `acc` is the chars of the current line,
reversed. -/
def splitlinesAux : List Char → List Char → List String
  | [], acc => if acc.isEmpty then [] else [String.mk acc.reverse]
  | '\r' :: '\n' :: rest, acc => String.mk acc.reverse :: splitlinesAux rest []
  | '\n' :: rest, acc => String.mk acc.reverse :: splitlinesAux rest []
  | '\r' :: rest, acc => String.mk acc.reverse :: splitlinesAux rest []
  | c :: rest, acc => splitlinesAux rest (c :: acc)

/-- Python `str.splitlines()` (over the `\n`, `\r\n` and `\r` line
boundaries the log endpoint can produce): line terminators are removed
and a trailing terminator does not create an empty final line. -/
def pySplitlines (s : String) : List String :=
  splitlinesAux s.data []

/-- Python `str.lower()` (ASCII case folding, which is all the script's
vocabulary needs). -/
def pyLower (s : String) : String :=
  String.mk (s.data.map Char.toLower)

/-- Helper for `pyContains`: does the list start with `sub`? -/
def startsWithChars : List Char → List Char → Bool
  | _, [] => true
  | [], _ :: _ => false
  | a :: as, b :: bs => (a = b) && startsWithChars as bs

/-- Helper for `pyContains`: does the list contain `sub` as a
contiguous run? -/
def containsChars (l sub : List Char) : Bool :=
  if startsWithChars l sub then true
  else
    match l with
    | [] => false
    | _ :: rest => containsChars rest sub

/-- Python `sub in s` substring containment. -/
def pyContains (s sub : String) : Bool :=
  containsChars s.data sub.data

/-! ## The `Report` writer (`class Report`) -/

/- The script's `ts()` is `datetime.now(...)`: wall-clock readings are
inputs of the model, passed in as plain strings named `now`. -/

/-- A report session: the text written to its artifact so far, plus how
many times `close` has run on it (the file handle is released by
`close`; we count its invocations to state the exactly-once property). -/
structure Report where
  content : String
  closes : Nat
deriving Repr, DecidableEq

/-- Model of `Report.__init__`: open the artifact and write the title banner with
the start timestamp. -/
def Report.openSession (title now : String) : Report :=
  ⟨"# " ++ title ++ "\n\n> Started: " ++ now ++ "\n\n", 0⟩

/-- Model of `Report.write`. -/
def Report.write (r : Report) (text : String) : Report :=
  ⟨r.content ++ text, r.closes⟩

/-- Text written by `Report.h2`. -/
def h2Text (text : String) : String := "\n## " ++ text ++ "\n\n"

/-- Text written by `Report.h3`. -/
def h3Text (text : String) : String := "\n### " ++ text ++ "\n\n"

/-- Text written by `Report.p`. -/
def pText (lines : List String) : String := pyJoin "\n" lines ++ "\n\n"

/-- Text written by `Report.blockquote`. -/
def blockquoteText (text : String) : String := "> " ++ text ++ "\n\n"

/-- Text written by `Report.code`. -/
def codeText (content : String) (lang : String) : String :=
  "```" ++ lang ++ "\n" ++ pyRstrip content ++ "\n```\n\n"

/-- Text written by `Report.cmd`. -/
def cmdText (cmdStr output : String) : String :=
  codeText ("$ " ++ cmdStr ++ "\n" ++ pyRstrip output) ""

/-- Text written by `Report.status`: the status banner line. -/
def statusText (ok : Bool) (msg now : String) : String :=
  let icon := if ok then "✓" else "⚠"
  let label := if msg = "" then (if ok then "OK" else "FAILED") else msg
  "> " ++ icon ++ " **" ++ label ++ "** — " ++ now ++ "\n\n"

/-- The terminal status line `Report.close` writes: `Completed` when
`ok`, `Phase failed — see details above` otherwise. -/
def closeText (ok : Bool) (now : String) : String :=
  statusText ok (if ok then "Completed" else "Phase failed — see details above") now

/-- Model of `Report.close`: write the terminal status line and release the
artifact handle. -/
def Report.close (r : Report) (ok : Bool) (now : String) : Report :=
  ⟨r.content ++ closeText ok now, r.closes + 1⟩

/-! ## `with Report(...) as r` — scoped acquisition with guaranteed release

A phase body, as far as the report artifact is concerned, is the list of
texts it writes (in order, up to the point where its scope exits) plus
the way its scope exits.  `__exit__` receives `exc_type` and calls
`close(ok := exc_type is None)`: a normal completion or an early
`return` leaves `exc_type` as `None` (ok), an unhandled fault does not.
`__exit__` returns `None`, so a fault is *not* suppressed: it continues
to propagate after `close` has run. -/

/-- How a phase body's scope exits. -/
inductive PExit where
  | normal
  | earlyReturn
  | fault
deriving Repr, DecidableEq

/-- Value of `exc_type is None` for the given exit: `true` except for an
unhandled fault. -/
def exitOk : PExit → Bool
  | .fault => false
  | _ => true

/-- A phase body's effect on its report session. -/
structure PhaseBody where
  writes : List String
  exit : PExit

/-- Run the body's writes on the open session. -/
def runBody (r : Report) (b : PhaseBody) : Report :=
  b.writes.foldl Report.write r

/-- The `with Report(path, title) as r: <body>` statement: open the
session, run the body, and close with `ok := exc_type is None` — on
every exit path. -/
def withReport (title now : String) (b : PhaseBody) : Report :=
  Report.close (runBody (Report.openSession title now) b) (exitOk b.exit) now

theorem closes_runBody (r : Report) (b : PhaseBody) :
    (runBody r b).closes = r.closes := by
  show (b.writes.foldl Report.write r).closes = r.closes
  induction b.writes generalizing r with
  | nil => rfl
  | cons x xs ih => simpa [Report.write] using ih (r.write x)

theorem withReport_closes (title now : String) (b : PhaseBody) :
    (withReport title now b).closes = 1 := by
  show (runBody (Report.openSession title now) b).closes + 1 = 1
  rw [closes_runBody]
  rfl

/-- C1. For every report session opened by a phase (`with Report(...)`),
`close` runs exactly once, with `ok` reflecting the phase outcome
(`exc_type is None`), and the written artifact ends with the terminal
status line: the `✓ **Completed**` line when the body's scope exits
normally or by an early `return`, and the
`⚠ **Phase failed — see details above**` line when it exits by an
unhandled fault. -/
theorem c1_close_exactly_once_terminal_status (title now : String) (b : PhaseBody) :
    (withReport title now b).closes = 1 ∧
    (∃ s, (withReport title now b).content = s ++ closeText (exitOk b.exit) now) ∧
    exitOk PExit.normal = true ∧ exitOk PExit.earlyReturn = true ∧
    exitOk PExit.fault = false ∧
    closeText true now = "> ✓ **Completed** — " ++ now ++ "\n\n" ∧
    closeText false now = "> ⚠ **Phase failed — see details above** — " ++ now ++ "\n\n" := by
  exact ⟨withReport_closes title now b,
    ⟨(runBody (Report.openSession title now) b).content, rfl⟩, rfl, rfl, rfl, rfl, rfl⟩

/-! ## The Phase Sequencer (`main`)

The sequencer calls `phase1_reset_otel()` … `phase8_recommendations(...)`
strictly in order, with no `try`/`except` around any of them.  Each
phase's `with Report(...)` block closes its session on every exit path,
but `__exit__` does not suppress a fault, so a fault raised inside a
phase body propagates out of `main` (a nonzero process exit), while
`preflight()` failure is an explicit `sys.exit(1)`.  A phase body is
abstracted to its report writes and its exit mode; tool exit codes,
poll outcomes and telemetry values are data inside the writes and never
change the exit mode by themselves (see `phase5BodyModel` and
`phase6BodyModel` below). -/

/-- Outcome of one `main()` execution. -/
inductive MainResult where
  | preflightFailure (code : Nat)
  | completed (reports : List Report)
  | aborted (reports : List Report)
deriving Repr

/-- Did the process reach the final summary and exit zero? -/
def MainResult.isCompleted : MainResult → Bool
  | .completed _ => true
  | _ => false

/-- The report sessions that were opened (and closed) during the run. -/
def MainResult.reports : MainResult → List Report
  | .completed rs => rs
  | .aborted rs => rs
  | .preflightFailure _ => []

/-- Run phase bodies in order.  Every opened session is closed by its
`with` block, but a faulting body's exception propagates: the remaining
phases do not run and the flag comes back `false`. -/
def runPhases (now : String) : List PhaseBody → List Report × Bool
  | [] => ([], true)
  | b :: rest =>
      let r := withReport "phase" now b
      if exitOk b.exit then
        let p := runPhases now rest
        (r :: p.1, p.2)
      else ([r], false)

/-- One run's environment: the preflight errors (missing tools or input
files found by `preflight()`) and the behaviour of the eight phase
bodies `main` invokes. -/
structure World where
  preflightErrors : List String
  now : String
  (p1 p2 p3 p4 p5 p6 p7 p8 : PhaseBody)

/-- The fixed call order of `main`. -/
def phaseList (w : World) : List PhaseBody :=
  [w.p1, w.p2, w.p3, w.p4, w.p5, w.p6, w.p7, w.p8]

/-- Model of `main()`: `preflight()` aborts with exit code 1 when it
found errors; otherwise the eight phases run in order until all
complete (process exits zero) or a fault propagates (process aborts). -/
def mainRun (w : World) : MainResult :=
  if w.preflightErrors.isEmpty then
    let res := runPhases w.now (phaseList w)
    if res.2 then .completed res.1 else .aborted res.1
  else .preflightFailure 1

/-- Model of the body of `phase5_launch_test`'s `with` block: whatever
`rc` the `gt nudge` subprocess returns, the body only writes (the
failure is recorded via an inner status banner) and the scope exits
normally. -/
def phase5BodyModel (prompt : String) (rc : Int) (nudgeOut now : String) : PhaseBody :=
  ⟨[h2Text "Prompt Content",
    prompt ++ "\n\n---\n\n",
    h2Text "Nudge delivery",
    cmdText "gt nudge mayor <PROMPT1.md content>" nudgeOut,
    statusText (rc == 0)
      (if rc == 0 then "Nudge delivered" else "Nudge failed (rc=" ++ toString rc ++ ")") now],
   .normal⟩

/-- Model of the body of `phase6_wait_convoy`'s `with` block: a timeout
of the poll loop is recorded as a warning blockquote and the scope
still exits normally (`pollWrites` are the per-tick poll-log lines). -/
def phase6BodyModel (pollWrites : List String) (landed : Bool) (elapsed : Nat)
    (convoyOut doctorOut trailOut : String) (convoyPoll convoyTimeout : Nat) : PhaseBody :=
  ⟨[blockquoteText ("Polling every " ++ toString convoyPoll ++ "s, timeout " ++
      toString convoyTimeout ++ "s"),
    h2Text "Poll Log"] ++ pollWrites ++
   [h2Text "Convoy Status", codeText convoyOut "",
    h2Text "Doctor", codeText doctorOut "",
    h2Text "Recent Agent Activity", codeText trailOut "",
    if landed then blockquoteText ("Convoy **LANDED** ✓ after " ++ toString elapsed ++ "s")
    else blockquoteText ("⚠ Timeout after " ++ toString elapsed ++ "s — convoy still open")],
   .normal⟩

theorem runPhases_no_fault (now : String) (bs : List PhaseBody)
    (h : ∀ b ∈ bs, b.exit ≠ PExit.fault) :
    runPhases now bs = (bs.map (withReport "phase" now), true) := by
  induction bs with
  | nil => rfl
  | cons b rest ih =>
      have hb : exitOk b.exit = true := by
        cases hx : b.exit with
        | fault => exact absurd hx (h b (List.mem_cons_self b rest))
        | normal => rfl
        | earlyReturn => rfl
      simp only [runPhases, hb, if_pos, ih (fun x hx => h x (List.mem_cons_of_mem b hx))]
      rfl

/-- A phase body that only writes. -/
def quietBody : PhaseBody := ⟨["recorded output\n"], .normal⟩

/-- A phase body whose internal logic raises an unhandled fault. -/
def faultingBody : PhaseBody := ⟨["partial output\n"], .fault⟩

/-- A run that passes preflight but whose second phase body raises. -/
def c2CexWorld : World :=
  ⟨[], "t0", quietBody, faultingBody, quietBody, quietBody, quietBody, quietBody,
   quietBody, quietBody⟩

/-- A run that passes preflight and in which no phase body raises. -/
def c2OkWorld : World :=
  ⟨[], "t0", quietBody, quietBody, quietBody, quietBody, quietBody, quietBody,
   quietBody, quietBody⟩

/-- C2, counterexample.  A run that passes preflight but whose second
phase body raises an unhandled fault does *not* complete all eight
phases and does not exit zero: `main` has no handler around the phase
calls, so the fault propagates after the session closes — only two
report sessions ever exist and the run is aborted. -/
theorem c2_counterexample :
    (mainRun c2CexWorld).isCompleted = false ∧
    (mainRun c2CexWorld).reports.length = 2 := by
  exact ⟨rfl, rfl⟩

/-- C2, amended.  For every run that passes preflight *and in which no
phase body raises an unhandled fault*, all eight phases run, every
session is closed exactly once, and the process exits zero; tool
failures (nonzero exit codes, e.g. in phase 5) and poll timeouts
(phase 6) are recorded as report data and leave the phase body exiting
normally, so they never abort the sequencer.  A raised fault, however,
closes the current session and then propagates, aborting the run
(see `c2_counterexample`). -/
theorem c2_amended_sequencer (w : World)
    (hpre : w.preflightErrors = [])
    (hf : ∀ b ∈ phaseList w, b.exit ≠ PExit.fault) :
    (mainRun w).isCompleted = true ∧
    (mainRun w).reports.length = 8 ∧
    (∀ r ∈ (mainRun w).reports, r.closes = 1) ∧
    (∀ prompt rc nudgeOut now, (phase5BodyModel prompt rc nudgeOut now).exit = PExit.normal) ∧
    (∀ pw landed elapsed a b c p t,
      (phase6BodyModel pw landed elapsed a b c p t).exit = PExit.normal) := by
  have hrun := runPhases_no_fault w.now (phaseList w) hf
  have hmain : mainRun w = .completed ((phaseList w).map (withReport "phase" w.now)) := by
    unfold mainRun
    rw [hpre]
    simp only [List.isEmpty_nil, if_pos, hrun]
  refine ⟨by rw [hmain]; rfl, by rw [hmain]; rfl, ?_, fun _ _ _ _ => rfl,
    fun _ _ _ _ _ _ _ _ => rfl⟩
  intro r hr
  rw [hmain] at hr
  simp only [MainResult.reports, List.mem_map] at hr
  obtain ⟨b, _, rfl⟩ := hr
  exact withReport_closes _ _ _

/-- Witness for `c2_amended_sequencer` at a concrete fault-free run. -/
theorem c2_amended_sequencer_witness :
    (mainRun c2OkWorld).isCompleted = true ∧
    (mainRun c2OkWorld).reports.length = 8 :=
  ⟨(c2_amended_sequencer c2OkWorld rfl (by decide)).1,
   (c2_amended_sequencer c2OkWorld rfl (by decide)).2.1⟩

/-! ## The table renderer (`Report.table`)

`widths = [max(len(str(h)), max((len(str(r[i])) for r in rows), default=0))
           for i, h in enumerate(headers)]`
`row_str(cells) = "| " + " | ".join(str(c).ljust(w) for c, w in zip(cells, widths)) + " |"`
`sep = "|" + "|".join("-" * (w + 2) for w in widths) + "|"`

Cells are modelled already stringified (the renderer applies `str(...)`
to every header and cell before measuring or padding).  `r[i]` raises
`IndexError` on a row shorter than the header list, which aborts
`table` before anything is written — modelled by `none`. -/

/-- Failure-aware map over a list (models a Python comprehension whose
body may raise): any failure fails the whole computation. -/
def optMapList (f : α → Option β) : List α → Option (List β)
  | [] => some []
  | a :: as =>
      match f a, optMapList f as with
      | some b, some bs => some (b :: bs)
      | _, _ => none

/-- Width of one column:
`max(len(str(h)), max((len(str(r[i])) for r in rows), default=0))`.
Python's `max(nonempty, default=0)` equals `foldl max 0` because
lengths are natural numbers. -/
def colWidth (h : String) (cellLens : List Nat) : Nat :=
  max h.length (cellLens.foldl max 0)

/-- The width list, column by column; `i` is the current column index
from `enumerate(headers)`. -/
def widthsGo (rows : List (List String)) : Nat → List String → Option (List Nat)
  | _, [] => some []
  | i, h :: hs =>
      match optMapList (fun r => r.get? i) rows, widthsGo rows (i + 1) hs with
      | some col, some ws => some (colWidth h (col.map String.length) :: ws)
      | _, _ => none

/-- The `widths` list of `Report.table`. -/
def tableWidths (headers : List String) (rows : List (List String)) : Option (List Nat) :=
  widthsGo rows 0 headers

/-- Model of `row_str(cells)`: `zip` truncates to the shorter list and
each cell is left-justified to its column width. -/
def rowStr (widths : List Nat) (cells : List String) : String :=
  "| " ++ pyJoin " | " ((cells.zip widths).map fun p => pyLjust p.1 p.2) ++ " |"

/-- Model of the separator row `sep`. -/
def sepRow (widths : List Nat) : String :=
  "|" ++ pyJoin "|" (widths.map fun w => String.mk (List.replicate (w + 2) '-')) ++ "|"

/-- The lines `Report.table` writes: header row, separator row, then one
line per data row — or `none` when the width computation raises. -/
def tableLines (headers : List String) (rows : List (List String)) : Option (List String) :=
  (tableWidths headers rows).map fun ws =>
    rowStr ws headers :: sepRow ws :: rows.map (rowStr ws)

theorem strLength_mk (l : List Char) : (String.mk l).length = l.length := rfl

theorem strLength_append (s t : String) : (s ++ t).length = s.length + t.length := by
  cases s
  cases t
  simp [String.length, String.append]

theorem strData_append (s t : String) : (s ++ t).data = s.data ++ t.data := by
  cases s
  cases t
  rfl

theorem pyLjust_length (s : String) (w : Nat) : (pyLjust s w).length = max s.length w := by
  have h : (pyLjust s w).length = s.length + (List.replicate (w - s.length) ' ').length := by
    rw [pyLjust, strLength_append]
    rfl
  rw [h, List.length_replicate]
  omega

theorem pyJoin_length_congr (sep : String) (l1 : List String) :
    ∀ l2 : List String, l1.map String.length = l2.map String.length →
    (pyJoin sep l1).length = (pyJoin sep l2).length := by
  induction l1 with
  | nil =>
      intro l2 h
      cases l2 with
      | nil => rfl
      | cons y ys =>
          simp only [List.map_nil, List.map_cons] at h
          exact List.noConfusion h
  | cons x xs ih =>
      intro l2 h
      cases l2 with
      | nil =>
          simp only [List.map_nil, List.map_cons] at h
          exact List.noConfusion h
      | cons y ys =>
          simp only [List.map_cons, List.cons.injEq] at h
          obtain ⟨hxy, htail⟩ := h
          cases xs with
          | nil =>
              cases ys with
              | cons u us =>
                  simp only [List.map_nil, List.map_cons] at htail
                  exact List.noConfusion htail
              | nil => exact hxy
          | cons z zs =>
              cases ys with
              | nil =>
                  simp only [List.map_nil, List.map_cons] at htail
                  exact List.noConfusion htail
              | cons u us =>
                  show (x ++ sep ++ pyJoin sep (z :: zs)).length =
                    (y ++ sep ++ pyJoin sep (u :: us)).length
                  rw [strLength_append, strLength_append, strLength_append, strLength_append,
                    ih (u :: us) htail, hxy]

theorem map_ljust_lengths (l : List (String × Nat)) (h : ∀ p ∈ l, p.1.length ≤ p.2) :
    l.map (fun p => (pyLjust p.1 p.2).length) = l.map Prod.snd := by
  induction l with
  | nil => rfl
  | cons p ps ih =>
      simp only [List.map_cons]
      rw [pyLjust_length, Nat.max_eq_right (h p (List.mem_cons_self p ps)),
        ih fun q hq => h q (List.mem_cons_of_mem p hq)]

theorem rowStr_pieces_len (ws : List Nat) (cells : List String)
    (hlen : ws.length ≤ cells.length)
    (hb : ∀ p ∈ cells.zip ws, p.1.length ≤ p.2) :
    (((cells.zip ws).map fun p => pyLjust p.1 p.2).map String.length) = ws := by
  rw [List.map_map]
  have heq : (String.length ∘ fun p : String × Nat => pyLjust p.1 p.2) =
      fun p : String × Nat => (pyLjust p.1 p.2).length := rfl
  rw [heq, map_ljust_lengths _ hb]
  exact List.map_snd_zip cells ws hlen

theorem rowStr_length_congr (ws : List Nat) (cells1 cells2 : List String)
    (h1 : ((cells1.zip ws).map fun p => pyLjust p.1 p.2).map String.length = ws)
    (h2 : ((cells2.zip ws).map fun p => pyLjust p.1 p.2).map String.length = ws) :
    (rowStr ws cells1).length = (rowStr ws cells2).length := by
  unfold rowStr
  rw [strLength_append, strLength_append, strLength_append, strLength_append,
    pyJoin_length_congr " | " _ _ (h1.trans h2.symm)]

theorem optMapList_get (i : Nat) (rows : List (List String)) :
    ∀ col : List String, optMapList (fun r => r.get? i) rows = some col →
    (∀ r ∈ rows, ∃ c, r.get? i = some c ∧ c ∈ col) ∧
    (∀ c ∈ col, ∃ r ∈ rows, r.get? i = some c) := by
  induction rows with
  | nil =>
      intro col h
      simp only [optMapList, Option.some.injEq] at h
      subst h
      exact ⟨fun r hr => absurd hr (List.not_mem_nil r),
        fun c hc => absurd hc (List.not_mem_nil c)⟩
  | cons r rs ih =>
      intro col h
      cases hc1 : r.get? i with
      | none =>
          simp only [optMapList, hc1] at h
          exact Option.noConfusion h
      | some c =>
          cases hc2 : optMapList (fun r => r.get? i) rs with
          | none =>
              simp only [optMapList, hc1, hc2] at h
              exact Option.noConfusion h
          | some cs =>
              simp only [optMapList, hc1, hc2, Option.some.injEq] at h
              subst h
              obtain ⟨ih1, ih2⟩ := ih cs hc2
              constructor
              · intro r' hr'
                rcases List.mem_cons.mp hr' with h' | h'
                · subst h'
                  exact ⟨c, hc1, List.mem_cons_self _ _⟩
                · obtain ⟨c', hg, hm⟩ := ih1 r' h'
                  exact ⟨c', hg, List.mem_cons_of_mem _ hm⟩
              · intro c' hc'
                rcases List.mem_cons.mp hc' with h' | h'
                · subst h'
                  exact ⟨r, List.mem_cons_self _ _, hc1⟩
                · obtain ⟨r', hm, hg⟩ := ih2 c' h'
                  exact ⟨r', List.mem_cons_of_mem _ hm, hg⟩

theorem le_foldl_max_init (b : Nat) (l : List Nat) : b ≤ l.foldl max b := by
  induction l generalizing b with
  | nil => exact Nat.le_refl b
  | cons x xs ih => exact le_trans (Nat.le_max_left b x) (ih (max b x))

theorem le_foldl_max_mem (a : Nat) : ∀ l : List Nat, a ∈ l → ∀ b, a ≤ l.foldl max b := by
  intro l
  induction l with
  | nil => intro h; exact absurd h (List.not_mem_nil a)
  | cons x xs ih =>
      intro h b
      rcases List.mem_cons.mp h with h' | h'
      · subst h'
        exact le_trans (Nat.le_max_right b a) (le_foldl_max_init (max b a) xs)
      · exact ih h' (max b x)

theorem foldl_max_cases : ∀ (l : List Nat) (b : Nat), l.foldl max b = b ∨ l.foldl max b ∈ l := by
  intro l
  induction l with
  | nil => intro b; exact Or.inl rfl
  | cons x xs ih =>
      intro b
      rcases ih (max b x) with h | h
      · rcases Nat.le_total x b with h' | h'
        · left
          rw [List.foldl_cons, h, Nat.max_eq_left h']
        · right
          rw [List.foldl_cons, h, Nat.max_eq_right h']
          exact List.mem_cons_self x xs
      · right
        exact List.mem_cons_of_mem x h

theorem colWidth_le_head (h : String) (lens : List Nat) : h.length ≤ colWidth h lens :=
  Nat.le_max_left _ _

theorem colWidth_le_mem {a : Nat} (h : String) (lens : List Nat) (ha : a ∈ lens) :
    a ≤ colWidth h lens :=
  le_trans (le_foldl_max_mem a lens ha 0) (Nat.le_max_right _ _)

theorem colWidth_attained (h : String) (lens : List Nat) :
    colWidth h lens = h.length ∨ colWidth h lens ∈ lens := by
  unfold colWidth
  rcases Nat.le_total (lens.foldl max 0) h.length with h' | h'
  · left
    exact Nat.max_eq_left h'
  · rw [Nat.max_eq_right h']
    rcases foldl_max_cases lens 0 with h'' | h''
    · left
      omega
    · right
      exact h''

theorem widthsGo_spec (rows : List (List String)) :
    ∀ (hs : List String) (i : Nat) (ws : List Nat),
    widthsGo rows i hs = some ws →
    ws.length = hs.length ∧
    ∀ j w, ws.get? j = some w →
      ∃ hd, hs.get? j = some hd ∧
        hd.length ≤ w ∧
        (∀ r ∈ rows, ∃ c, r.get? (i + j) = some c ∧ c.length ≤ w) ∧
        (w = hd.length ∨ ∃ r ∈ rows, ∃ c, r.get? (i + j) = some c ∧ c.length = w) := by
  intro hs
  induction hs with
  | nil =>
      intro i ws h
      simp only [widthsGo, Option.some.injEq] at h
      subst h
      exact ⟨rfl, fun j w hw => by simp at hw⟩
  | cons hd hs ih =>
      intro i ws h
      cases hc1 : optMapList (fun r => r.get? i) rows with
      | none =>
          simp only [widthsGo, hc1] at h
          exact Option.noConfusion h
      | some col =>
          cases hc2 : widthsGo rows (i + 1) hs with
          | none =>
              simp only [widthsGo, hc1, hc2] at h
              exact Option.noConfusion h
          | some ws' =>
              simp only [widthsGo, hc1, hc2, Option.some.injEq] at h
              subst h
              obtain ⟨hlen, hspec⟩ := ih (i + 1) ws' hc2
              obtain ⟨hall, hexists⟩ := optMapList_get i rows col hc1
              refine ⟨by simp [hlen], ?_⟩
              intro j w hw
              cases j with
              | zero =>
                  simp only [List.get?, Option.some.injEq] at hw
                  subst hw
                  refine ⟨hd, rfl, colWidth_le_head hd _, ?_, ?_⟩
                  · intro r hr
                    obtain ⟨c, hg, hm⟩ := hall r hr
                    exact ⟨c, by simpa using hg,
                      colWidth_le_mem hd _ (List.mem_map_of_mem String.length hm)⟩
                  · rcases colWidth_attained hd (col.map String.length) with h' | h'
                    · exact Or.inl h'
                    · right
                      obtain ⟨c, hcm, hcl⟩ := List.mem_map.mp h'
                      obtain ⟨r, hrm, hg⟩ := hexists c hcm
                      exact ⟨r, hrm, c, by simpa using hg, hcl⟩
              | succ j' =>
                  simp only [List.get?] at hw
                  obtain ⟨hd', hh, h1, h2, h3⟩ := hspec j' w hw
                  refine ⟨hd', by simpa using hh, h1, ?_, ?_⟩
                  · intro r hr
                    obtain ⟨c, hg, hl⟩ := h2 r hr
                    refine ⟨c, ?_, hl⟩
                    rw [show i + (j' + 1) = i + 1 + j' by omega]
                    exact hg
                  · rcases h3 with h3 | h3
                    · exact Or.inl h3
                    · right
                      obtain ⟨r, hrm, c, hg, hcl⟩ := h3
                      refine ⟨r, hrm, c, ?_, hcl⟩
                      rw [show i + (j' + 1) = i + 1 + j' by omega]
                      exact hg

theorem mem_zip_idx {α β : Type} : ∀ (l1 : List α) (l2 : List β) (p : α × β),
    p ∈ l1.zip l2 → ∃ j, l1.get? j = some p.1 ∧ l2.get? j = some p.2 := by
  intro l1
  induction l1 with
  | nil => intro l2 p h; simp [List.zip] at h
  | cons a as ih =>
      intro l2 p h
      cases l2 with
      | nil => simp [List.zip] at h
      | cons b bs =>
          rw [List.zip_cons_cons] at h
          rcases List.mem_cons.mp h with h' | h'
          · subst h'
            exact ⟨0, rfl, rfl⟩
          · obtain ⟨j, h1, h2⟩ := ih bs p h'
            exact ⟨j + 1, by simpa using h1, by simpa using h2⟩

theorem row_long_enough (r : List String) (ws : List Nat)
    (h : ∀ j w, ws.get? j = some w → ∃ c, r.get? j = some c) : ws.length ≤ r.length := by
  by_contra hlt
  push_neg at hlt
  obtain ⟨w, hw⟩ : ∃ w, ws.get? r.length = some w := by
    cases hws : ws.get? r.length with
    | none =>
        rw [List.get?_eq_none] at hws
        omega
    | some w => exact ⟨w, rfl⟩
  obtain ⟨c, hc⟩ := h r.length w hw
  have hnone : r.get? r.length = none := List.get?_eq_none.mpr (Nat.le_refl _)
  rw [hnone] at hc
  exact Option.noConfusion hc

theorem pyJoin_cons_cons (sep x y : String) (ys : List String) :
    pyJoin sep (x :: y :: ys) = x ++ sep ++ pyJoin sep (y :: ys) := rfl

theorem strData_bar : ("|" : String).data = ['|'] := rfl

theorem pyJoinBar_data : ∀ ws : List Nat, ws ≠ [] →
    (pyJoin "|" (ws.map fun w => String.mk (List.replicate (w + 2) '-'))).data ++ ['|'] =
    (ws.map fun w => List.replicate (w + 2) '-' ++ ['|']).flatten := by
  intro ws
  induction ws with
  | nil => intro h; exact absurd rfl h
  | cons w rest ih =>
      intro _
      cases rest with
      | nil => simp [pyJoin]
      | cons w' rest' =>
          have ihh := ih (List.cons_ne_nil w' rest')
          simp only [List.map_cons] at ihh ⊢
          rw [pyJoin_cons_cons, strData_append, strData_append, List.flatten_cons, ← ihh]
          simp [List.append_assoc, strData_bar]

theorem sepRow_data (ws : List Nat) (h : ws ≠ []) :
    (sepRow ws).data = '|' :: (ws.map fun w => List.replicate (w + 2) '-' ++ ['|']).flatten := by
  unfold sepRow
  rw [strData_append, strData_append, List.append_assoc, pyJoinBar_data ws h]
  rfl

/-- C3. For every header list and row list on which `Report.table`
computes its widths (Python raises `IndexError` — modelled by `none` —
when a data row is shorter than the header list), the renderer writes
the header row, the separator row and one line per data row; every
rendered data row has exactly the same character width as the rendered
header row; the width list has one entry per header column, each entry
being the maximum of the header cell's length and the lengths of all of
that column's cell values (both an upper bound and attained); and the
separator row is a frame bar followed, for each column, by a run of
`w + 2` dashes and a bar. -/
theorem c3_table_alignment (headers : List String) (rows : List (List String))
    (ws : List Nat) (h : tableWidths headers rows = some ws) :
    tableLines headers rows = some (rowStr ws headers :: sepRow ws :: rows.map (rowStr ws)) ∧
    (∀ r ∈ rows, (rowStr ws r).length = (rowStr ws headers).length) ∧
    ws.length = headers.length ∧
    (∀ j w, ws.get? j = some w → ∃ hd, headers.get? j = some hd ∧
      hd.length ≤ w ∧ (∀ r ∈ rows, ∃ c, r.get? j = some c ∧ c.length ≤ w) ∧
      (w = hd.length ∨ ∃ r ∈ rows, ∃ c, r.get? j = some c ∧ c.length = w)) ∧
    (ws ≠ [] → (sepRow ws).data =
      '|' :: (ws.map fun w => List.replicate (w + 2) '-' ++ ['|']).flatten) := by
  obtain ⟨hlen, hspec⟩ := widthsGo_spec rows headers 0 ws h
  have hspec0 : ∀ j w, ws.get? j = some w → ∃ hd, headers.get? j = some hd ∧
      hd.length ≤ w ∧ (∀ r ∈ rows, ∃ c, r.get? j = some c ∧ c.length ≤ w) ∧
      (w = hd.length ∨ ∃ r ∈ rows, ∃ c, r.get? j = some c ∧ c.length = w) := by
    intro j w hw
    obtain ⟨hd, h1, h2, h3, h4⟩ := hspec j w hw
    refine ⟨hd, h1, h2, ?_, ?_⟩
    · intro r hr
      obtain ⟨c, hg, hl⟩ := h3 r hr
      exact ⟨c, by simpa using hg, hl⟩
    · rcases h4 with h4 | h4
      · exact Or.inl h4
      · right
        obtain ⟨r, hrm, c, hg, hcl⟩ := h4
        exact ⟨r, hrm, c, by simpa using hg, hcl⟩
  refine ⟨by simp [tableLines, h], ?_, hlen, hspec0, sepRow_data ws⟩
  intro r hr
  have hbr : ∀ p ∈ r.zip ws, p.1.length ≤ p.2 := by
    intro p hp
    obtain ⟨j, h1, h2⟩ := mem_zip_idx r ws p hp
    obtain ⟨hd, _, _, h3, _⟩ := hspec0 j p.2 h2
    obtain ⟨c, hg, hl⟩ := h3 r hr
    obtain rfl := Option.some.inj (h1.symm.trans hg)
    exact hl
  have hbh : ∀ p ∈ headers.zip ws, p.1.length ≤ p.2 := by
    intro p hp
    obtain ⟨j, h1, h2⟩ := mem_zip_idx headers ws p hp
    obtain ⟨hd, hh, hle, _, _⟩ := hspec0 j p.2 h2
    obtain rfl := Option.some.inj (h1.symm.trans hh)
    exact hle
  have hlr : ws.length ≤ r.length := by
    refine row_long_enough r ws fun j w hw => ?_
    obtain ⟨hd, _, _, h3, _⟩ := hspec0 j w hw
    obtain ⟨c, hg, _⟩ := h3 r hr
    exact ⟨c, hg⟩
  exact rowStr_length_congr ws r headers
    (rowStr_pieces_len ws r hlr hbr) (rowStr_pieces_len ws headers (le_of_eq hlen) hbh)

/-- Witness for `c3_table_alignment` at a concrete table. -/
theorem c3_table_alignment_witness :
    tableLines ["ab", "c"] [["x", "yyy"]] =
      some (rowStr [2, 3] ["ab", "c"] :: sepRow [2, 3] :: [["x", "yyy"]].map (rowStr [2, 3])) :=
  (c3_table_alignment ["ab", "c"] [["x", "yyy"]] [2, 3] (by decide)).1

theorem widthsGo_empty_rows : ∀ (hs : List String) (i : Nat),
    widthsGo [] i hs = some (hs.map String.length) := by
  intro hs
  induction hs with
  | nil => intro i; rfl
  | cons hd t ih =>
      intro i
      simp only [widthsGo, optMapList, ih (i + 1), List.map_cons]
      simp [colWidth]

/-- C10. For every non-empty header list paired with an empty row list,
the width computation succeeds with each column's width equal to its own
header cell's length (the inner `max(..., default=0)` over no cells
contributes 0), and the renderer emits exactly the header row and the
separator row — no data rows. -/
theorem c10_table_empty_rows (headers : List String) (_hne : headers ≠ []) :
    tableWidths headers [] = some (headers.map String.length) ∧
    tableLines headers [] =
      some [rowStr (headers.map String.length) headers,
        sepRow (headers.map String.length)] := by
  have hw : tableWidths headers [] = some (headers.map String.length) :=
    widthsGo_empty_rows headers 0
  exact ⟨hw, by simp [tableLines, hw]⟩

/-- Witness for `c10_table_empty_rows` at a concrete header list. -/
theorem c10_table_empty_rows_witness :
    tableWidths ["a", "bb"] [] = some (["a", "bb"].map String.length) ∧
    tableLines ["a", "bb"] [] =
      some [rowStr (["a", "bb"].map String.length) ["a", "bb"],
        sepRow (["a", "bb"].map String.length)] :=
  c10_table_empty_rows ["a", "bb"] (by decide)

/-! ## The Completion Poller (the wait loop of `phase6_wait_convoy`)

`while elapsed < CONVOY_TIMEOUT:`
`    if convoy_landed(): landed = True; break`
`    time.sleep(CONVOY_POLL); elapsed += CONVOY_POLL`

`pred k` is the result of the `k`-th `convoy_landed()` call, `p` the
poll interval (`CONVOY_POLL`, 30 in the source) and `T` the timeout
(`CONVOY_TIMEOUT`).  The positive interval of the source is carried as
the hypothesis `hp`, which also bounds the loop. -/

/-- The poll loop from an arbitrary iteration: `k` calls made so far,
`elapsed` seconds accumulated. -/
def pollFrom (pred : Nat → Bool) (p T : Nat) (hp : 0 < p) (k elapsed : Nat) : Bool × Nat :=
  if _h : elapsed < T then
    if pred k then (true, elapsed)
    else pollFrom pred p T hp (k + 1) (elapsed + p)
  else (false, elapsed)
termination_by T - elapsed
decreasing_by omega

/-- The loop as entered by `phase6_wait_convoy` (`landed = False`,
`elapsed = 0`): the final `(landed, elapsed)` pair. -/
def phase6Poll (pred : Nat → Bool) (p T : Nat) (hp : 0 < p) : Bool × Nat :=
  pollFrom pred p T hp 0 0

theorem pollFrom_lands (pred : Nat → Bool) (p T : Nat) (hp : 0 < p) :
    ∀ d k elapsed : Nat, (∀ i < d, pred (k + i) = false) → pred (k + d) = true →
    elapsed + d * p < T →
    pollFrom pred p T hp k elapsed = (true, elapsed + d * p) := by
  intro d
  induction d with
  | zero =>
      intro k elapsed hfalse htrue hT
      have hlt : elapsed < T := by omega
      have htrue' : pred k = true := by simpa using htrue
      rw [pollFrom.eq_def, dif_pos hlt, if_pos htrue']
      simp
  | succ d ih =>
      intro k elapsed hfalse htrue hT
      have hlt : elapsed < T := Nat.lt_of_le_of_lt (Nat.le_add_right _ _) hT
      have hp0 : pred k = false := by simpa using hfalse 0 (Nat.succ_pos d)
      rw [pollFrom.eq_def, dif_pos hlt, if_neg (by simp [hp0])]
      have h1 : ∀ i < d, pred (k + 1 + i) = false := by
        intro i hi
        have := hfalse (i + 1) (by omega)
        rwa [show k + (i + 1) = k + 1 + i by omega] at this
      have h2 : pred (k + 1 + d) = true := by
        rwa [show k + (d + 1) = k + 1 + d by omega] at htrue
      have h3 : (elapsed + p) + d * p < T := by
        have he : elapsed + (d + 1) * p = elapsed + p + d * p := by ring
        omega
      rw [ih (k + 1) (elapsed + p) h1 h2 h3]
      rw [show elapsed + p + d * p = elapsed + (d + 1) * p by ring]

theorem pollFrom_timeout (pred : Nat → Bool) (p T : Nat) (hp : 0 < p)
    (hnever : ∀ i, pred i = false) :
    ∀ n elapsed k : Nat, n = T - elapsed →
    pollFrom pred p T hp k elapsed =
      (false, elapsed + p * ((T - elapsed + p - 1) / p)) := by
  intro n
  induction n using Nat.strong_induction_on with
  | _ n ih =>
      intro elapsed k hn
      by_cases hlt : elapsed < T
      · rw [pollFrom.eq_def, dif_pos hlt, if_neg (by simp [hnever k])]
        rw [ih (T - (elapsed + p)) (by omega) (elapsed + p) (k + 1) rfl]
        have hT1 : 1 ≤ T - elapsed := by omega
        have e1 : T - (elapsed + p) = T - elapsed - p := by omega
        rw [e1]
        have e2 : T - elapsed + p - 1 = (T - elapsed - 1) + p := by omega
        rw [e2, Nat.add_div_right _ hp]
        by_cases hcase : p < T - elapsed
        · have e3 : T - elapsed - p + p - 1 = T - elapsed - 1 := by omega
          rw [e3]
          ring_nf
        · have e3 : T - elapsed - p = 0 := by omega
          rw [e3]
          have e4 : (0 + p - 1) / p = 0 := Nat.div_eq_of_lt (by omega)
          rw [e4]
          have e5 : (T - elapsed - 1) / p = 0 := Nat.div_eq_of_lt (by omega)
          rw [e5]
          ring_nf
      · rw [pollFrom.eq_def, dif_neg hlt]
        have e0 : T - elapsed = 0 := by omega
        rw [e0]
        have e1 : (0 + p - 1) / p = 0 := Nat.div_eq_of_lt (by omega)
        rw [e1]
        simp

/-- C4. The Completion Poller: for a predicate that is false on its
first `k` invocations and true on invocation `k + 1`, with timeout
`T > k * p`, the loop reports landed with `elapsed = k * p`; for a
predicate that never becomes true, it reports timed out with `elapsed`
equal to `T` rounded up to a multiple of the poll interval `p`. -/
theorem c4_completion_poller (pred : Nat → Bool) (p T k : Nat) (hp : 0 < p) :
    ((∀ i < k, pred i = false) → pred k = true → k * p < T →
      phase6Poll pred p T hp = (true, k * p)) ∧
    ((∀ i, pred i = false) →
      phase6Poll pred p T hp = (false, p * ((T + p - 1) / p))) := by
  constructor
  · intro hfalse htrue hT
    have h := pollFrom_lands pred p T hp k 0 0
      (by simpa using hfalse) (by simpa using htrue) (by omega)
    simpa [phase6Poll] using h
  · intro hnever
    have h := pollFrom_timeout pred p T hp hnever T 0 0 (by omega)
    simpa [phase6Poll] using h

/-- Witness for `c4_completion_poller`: with the source's 30-second
interval, a predicate true on its third call lands at 60s, and with a
100-second timeout a never-true predicate times out at 120s. -/
theorem c4_completion_poller_witness :
    phase6Poll (fun i => decide (i = 2)) 30 3600 (by decide) = (true, 60) ∧
    phase6Poll (fun _ => false) 30 100 (by decide) = (false, 120) := by
  constructor
  · exact (c4_completion_poller (fun i => decide (i = 2)) 30 3600 2 (by decide)).1
      (by decide) (by decide) (by decide)
  · have h := (c4_completion_poller (fun _ => false) 30 100 0 (by decide)).2 (fun _ => rfl)
    exact h.trans (by norm_num)

/-! ## The Recommendation Engine (`phase8_recommendations`)

The snapshot comes from phase 6/7 data: `landed`, `errors` (from
`vl_count`, so possibly −1), `spawns = int(polecat_spawns)` and
`input_tokens` (from `vm_scalar`).  In the scenarios of interest the
numeric inputs are integers, so the metric values are modelled as `Int`.
The engine emits `r.h3(f"{n}. …")` headings with a counter `n` that
starts at 1 and increments once per emitted item; the model returns the
ordered list of emitted headings. -/

/-- Helper for `commaFmt`: insert a comma after every third digit of the
reversed digit list. -/
def groupRevDigits : List Char → List Char
  | a :: b :: c :: d :: rest => a :: b :: c :: ',' :: groupRevDigits (d :: rest)
  | l => l

/-- Python's `f"{value:,}"` thousands-separator formatting for an
integer value. -/
def commaFmt (n : Int) : String :=
  let digits := toString n.natAbs
  (if n < 0 then "-" else "") ++ String.mk (groupRevDigits digits.data.reverse).reverse

/-- The headings emitted by `phase8_recommendations`, in order:
four conditional rules (not-landed, errors, polecat count, token usage)
followed by four unconditional ones, numbered by a gap-free counter. -/
def phase8Recs (landed : Bool) (errors spawns inputTokens : Int) : List String := Id.run do
  let mut n : Nat := 1
  let mut items : List String := []
  if !landed then
    items := items ++ [toString n ++ ". Convoy did not land — investigate agent states"]
    n := n + 1
  if errors > 0 then
    items := items ++ [toString n ++ ". " ++ toString errors ++ " error(s) detected in logs"]
    n := n + 1
  if spawns == 0 then
    items := items ++ [toString n ++ ". No polecats were spawned"]
    n := n + 1
  else if spawns != 3 then
    items := items ++ [toString n ++ ". Unexpected polecat count: " ++ toString spawns ++
      " (expected 3)"]
    n := n + 1
  if inputTokens > 100000 then
    items := items ++ [toString n ++ ". High input token usage (" ++ commaFmt inputTokens ++
      " tokens)"]
    n := n + 1
  items := items ++ [toString n ++ ". Verify Python crypto deliverables"]
  n := n + 1
  items := items ++ [toString n ++ ". Check Claude Code OTLP coverage per agent"]
  n := n + 1
  items := items ++ [toString n ++ ". Explore traces in gastown-trace"]
  n := n + 1
  items := items ++ [toString n ++ ". Review Grafana dashboards"]
  n := n + 1
  return items

/-- C5. The Recommendation Engine on the two concrete snapshots of the
specification: `landed=false, errors=2, spawns=0, inputTokens=50000`
yields the not-landed, two-errors and no-polecats items numbered 1–3,
no token-usage item, then the four unconditional items numbered 4–7;
`landed=true, errors=0, spawns=3, inputTokens=150000` yields exactly
the token-usage item followed by the four unconditional items, five
items in total, numbered 1–5 without gaps. -/
theorem c5_recommendations :
    phase8Recs false 2 0 50000 =
      ["1. Convoy did not land — investigate agent states",
       "2. 2 error(s) detected in logs",
       "3. No polecats were spawned",
       "4. Verify Python crypto deliverables",
       "5. Check Claude Code OTLP coverage per agent",
       "6. Explore traces in gastown-trace",
       "7. Review Grafana dashboards"] ∧
    (∀ s ∈ phase8Recs false 2 0 50000, pyContains s "High input token usage" = false) ∧
    phase8Recs true 0 3 150000 =
      ["1. High input token usage (150,000 tokens)",
       "2. Verify Python crypto deliverables",
       "3. Check Claude Code OTLP coverage per agent",
       "4. Explore traces in gastown-trace",
       "5. Review Grafana dashboards"] ∧
    (phase8Recs true 0 3 150000).length = 5 := by
  refine ⟨by decide, by decide, by decide, by decide⟩

/-! ## Parsed JSON values

`json.loads` is external; it is modelled as an oracle
`parse : String → Except String JValue` producing a parsed value or the
exception message of a parse failure.  `JValue` covers the values the
parser can produce; Python dicts are field lists with unique keys. -/

/-- A parsed JSON value. -/
inductive JValue where
  | null
  | bool (b : Bool)
  | num (n : Int)
  | str (s : String)
  | arr (xs : List JValue)
  | obj (fields : List (String × JValue))

/-- Python `dict.get(k)` over parsed-object fields (keys are unique in a
parsed dict, so first match suffices). -/
def jLookup (fields : List (String × JValue)) (k : String) : Option JValue :=
  match fields with
  | [] => none
  | (k', v) :: rest => if k' = k then some v else jLookup rest k

/-- Python truthiness of a parsed-JSON value (`if not results: …`). -/
def pyFalsy : JValue → Bool
  | .null => true
  | .bool b => !b
  | .num n => n == 0
  | .str s => s == ""
  | .arr xs => xs.isEmpty
  | .obj fs => fs.isEmpty

/-- Is the top-level value a JSON array (`isinstance(x, list)`)? -/
def isArr : JValue → Bool
  | .arr _ => true
  | _ => false

mutual

/-- Python `repr()` of a parsed-JSON value (how values nested inside a
container render when the container is interpolated into an f-string). -/
def pyRepr : JValue → String
  | .null => "None"
  | .bool b => if b then "True" else "False"
  | .num n => toString n
  | .str s => String.singleton '\'' ++ s ++ String.singleton '\''
  | .arr xs => "[" ++ pyJoin ", " (pyReprList xs) ++ "]"
  | .obj fs => "\x7b" ++ pyJoin ", " (pyReprFields fs) ++ "\x7d"

/-- Helper of `pyRepr` for list elements. -/
def pyReprList : List JValue → List String
  | [] => []
  | x :: xs => pyRepr x :: pyReprList xs

/-- Helper of `pyRepr` for dict items. -/
def pyReprFields : List (String × JValue) → List String
  | [] => []
  | (k, v) :: fs =>
      (String.singleton '\'' ++ k ++ String.singleton '\'' ++ ": " ++ pyRepr v) ::
        pyReprFields fs

end

/-- Python `str()` of a parsed-JSON value, as f-string interpolation
applies it: a string renders itself, everything else as its repr. -/
def pyStr : JValue → String
  | .str s => s
  | v => pyRepr v

/-! ## The Telemetry Query Client: `vm_query` -/

/-- Python `x.get(k, default)`: raises `AttributeError` when `x` is not
a dict. -/
def pyGet (j : JValue) (k : String) (d : JValue) : Except String JValue :=
  match j with
  | .obj fs => .ok ((jLookup fs k).getD d)
  | _ => .error "AttributeError"

/-- Python `val[1]`: list and string indexing succeed when long enough
(`IndexError` otherwise); other values raise `TypeError`. -/
def pyIndex1 : JValue → Except String JValue
  | .arr xs =>
      match xs.get? 1 with
      | some v => .ok v
      | none => .error "IndexError"
  | .str s =>
      match s.data.get? 1 with
      | some c => .ok (.str (String.mk [c]))
      | none => .error "IndexError"
  | _ => .error "TypeError"

/-- One formatted line of `vm_query` for one result element `r`:
`m = dict(r.get("metric", {}))` (raises on a non-dict),
`val = r.get("value", [None, "n/a"])[1]`,
`name = m.pop("__name__", q)`,
`labels = ", ".join(f"{k}={v}" for k, v in m.items())`, and the line is
`f"  {name}{suffix} = {val}"` with `suffix` the labels wrapped in braces
when nonempty.  Any raising step becomes `.error`. -/
def vmLine (q : String) (r : JValue) : Except String String :=
  match r with
  | .obj fs =>
      match (jLookup fs "metric").getD (.obj []) with
      | .obj mfs =>
          match pyIndex1 ((jLookup fs "value").getD (.arr [.null, .str "n/a"])) with
          | .error e => .error e
          | .ok val =>
              let name := pyStr ((jLookup mfs "__name__").getD (.str q))
              let rest := mfs.filter fun kv => kv.1 != "__name__"
              let labels := pyJoin ", " (rest.map fun kv => kv.1 ++ "=" ++ pyStr kv.2)
              let suffix := if labels.isEmpty then "" else "\x7b" ++ labels ++ "\x7d"
              .ok ("  " ++ name ++ suffix ++ " = " ++ pyStr val)
      | _ => .error "TypeError"
  | _ => .error "AttributeError"

/-- The body of `vm_query`'s `try` block after `json.loads` succeeded:
navigate `.get("data", {}).get("result", [])`, return the no-data marker
when the result set is empty (falsy), and format one line per result
element.  A truthy non-list `result` fails inside the `for` loop as it
does in Python: iterating a nonempty string or dict yields strings whose
`.get` raises `AttributeError`; numbers and booleans are not iterable
(`TypeError`). -/
def vmFormatBody (q : String) (j : JValue) : Except String String :=
  match pyGet j "data" (.obj []) with
  | .error e => .error e
  | .ok dataV =>
      match pyGet dataV "result" (.arr []) with
      | .error e => .error e
      | .ok resultsV =>
          if pyFalsy resultsV then .ok "  (no data)"
          else
            match resultsV with
            | .arr rs =>
                match rs.mapM (vmLine q) with
                | .error e => .error e
                | .ok lines => .ok (pyJoin "\n" lines)
            | .str _ => .error "AttributeError"
            | .obj _ => .error "AttributeError"
            | _ => .error "TypeError"

/-- Model of `vm_query(q)`: `body` is the transport result (`none` when
`http_get` caught an exception and returned `None`); `parse` is the
`json.loads` oracle.  `if not body:` returns the no-data marker for both
`None` and the empty string; the `try` block catches every exception `e`
into the parse-error marker. -/
def vm_query (q : String) (body : Option String) (parse : String → Except String JValue) :
    String :=
  match body with
  | none => "  (no data)"
  | some b =>
      if b = "" then "  (no data)"
      else
        match parse b with
        | .error e => "  (parse error: " ++ e ++ ")"
        | .ok j =>
            match vmFormatBody q j with
            | .error e => "  (parse error: " ++ e ++ ")"
            | .ok s => s

/-- C6, counterexample.  On transport failure (`http_get` returns
`None`) `vm_query` returns the no-data marker, not a parse-error marker
as the claim states. -/
theorem c6_counterexample :
    vm_query "up" none (fun _ => Except.ok JValue.null) = "  (no data)" ∧
    "  (parse error".isPrefixOf (vm_query "up" none (fun _ => Except.ok JValue.null)) =
      false := by
  exact ⟨rfl, by decide⟩

/-- C6, amended.  `vm_query` never raises (it is a total function of the
transport and parse outcomes): it returns the `(no data)` marker on
transport failure, on an empty response body, and on an empty (falsy)
result set; it returns the `(parse error: …)` marker exactly when a
response was received but `json.loads` or the response-shape navigation
raises. -/
theorem c6_amended_vm_query (q b e : String) (parse : String → Except String JValue)
    (j : JValue) :
    vm_query q none parse = "  (no data)" ∧
    vm_query q (some "") parse = "  (no data)" ∧
    (b ≠ "" → parse b = .error e →
      vm_query q (some b) parse = "  (parse error: " ++ e ++ ")") ∧
    (b ≠ "" → parse b = .ok j → vmFormatBody q j = .error e →
      vm_query q (some b) parse = "  (parse error: " ++ e ++ ")") ∧
    (b ≠ "" → parse b = .ok j → vmFormatBody q j = .ok "  (no data)" →
      vm_query q (some b) parse = "  (no data)") ∧
    vmFormatBody q (JValue.obj [("data", JValue.obj [("result", JValue.arr [])])]) =
      .ok "  (no data)" := by
  refine ⟨rfl, rfl, ?_, ?_, ?_, rfl⟩
  · intro hb hp
    simp [vm_query, hb, hp]
  · intro hb hp hf
    simp [vm_query, hb, hp, hf]
  · intro hb hp hf
    simp [vm_query, hb, hp, hf]

/-- Witness for `c6_amended_vm_query`: a received but unparseable body
yields the parse-error marker. -/
theorem c6_amended_vm_query_witness :
    vm_query "up" (some "x") (fun _ => Except.error "boom") = "  (parse error: boom)" :=
  (c6_amended_vm_query "up" "x" "boom" (fun _ => Except.error "boom") JValue.null).2.2.1
    (by decide) rfl

/-! ## The Telemetry Query Client: `vl_count` -/

/-- Model of `vl_count(q)`: `body` is the transport result of the
VictoriaLogs query (`none` = endpoint unreachable); the result is −1 on
an unreachable endpoint, otherwise
`len([l for l in body.splitlines() if l.strip()])`. -/
def vl_count (body : Option String) : Int :=
  match body with
  | none => -1
  | some b => ((pySplitlines b).filter fun l => pyStrip l != "").length

theorem dropWhile_head_not (p : Char → Bool) :
    ∀ (xs : List Char) (y : Char) (t : List Char), xs.dropWhile p = y :: t → p y = false := by
  intro xs
  induction xs with
  | nil => intro y t h; exact List.noConfusion h
  | cons a as ih =>
      intro y t h
      by_cases ha : p a
      · rw [List.dropWhile_cons_of_pos ha] at h
        exact ih y t h
      · rw [List.dropWhile_cons_of_neg ha] at h
        obtain ⟨rfl, rfl⟩ := List.cons.inj h
        exact Bool.eq_false_iff.mpr ha

theorem pyStrip_eq_empty_iff (l : String) :
    pyStrip l = "" ↔ ∀ c ∈ l.data, isPySpace c = true := by
  have hmk : ∀ X : List Char, String.mk X = "" ↔ X = [] := by
    intro X
    constructor
    · intro h
      exact congrArg String.data h
    · intro h
      rw [h]
  unfold pyStrip
  rw [hmk, List.reverse_eq_nil_iff, List.dropWhile_eq_nil_iff]
  constructor
  · intro h c hc
    rcases hsplit : l.data.dropWhile isPySpace with _ | ⟨y, t⟩
    · -- everything was dropped: every char satisfies the predicate
      have := List.takeWhile_append_dropWhile (p := isPySpace) (l := l.data)
      rw [hsplit, List.append_nil] at this
      rw [← this] at hc
      exact List.mem_takeWhile_imp hc
    · -- the head of the dropWhile result would violate `h`
      have hy : isPySpace y = false := dropWhile_head_not isPySpace l.data y t hsplit
      have hmem : y ∈ (l.data.dropWhile isPySpace).reverse := by
        rw [hsplit]
        simp
      have := h y hmem
      rw [this] at hy
      exact Bool.noConfusion hy
  · intro h x hx
    have hx' : x ∈ l.data.dropWhile isPySpace := List.mem_reverse.mp hx
    have hxl : x ∈ l.data := by
      have hsplit := List.takeWhile_append_dropWhile (p := isPySpace) (l := l.data)
      rw [← hsplit]
      exact List.mem_append_right _ hx'
    exact h x hxl

theorem strip_ne_iff_any (l : String) :
    (pyStrip l != "") = l.data.any fun c => !isPySpace c := by
  rcases h : l.data.any fun c => !isPySpace c with _ | _
  · have hall : ∀ c ∈ l.data, isPySpace c = true := by
      intro c hc
      have := List.any_eq_false.mp h c hc
      simpa using this
    rw [(pyStrip_eq_empty_iff l).mpr hall]
    rfl
  · have hne : pyStrip l ≠ "" := by
      intro hempty
      obtain ⟨c, hc, hcp⟩ := List.any_eq_true.mp h
      have := (pyStrip_eq_empty_iff l).mp hempty c hc
      rw [this] at hcp
      exact Bool.noConfusion hcp
    simpa using hne

theorem vl_count_some_eq (b : String) :
    vl_count (some b) =
      (((pySplitlines b).filter fun l => l.data.any fun c => !isPySpace c).length : Int) := by
  show (((pySplitlines b).filter fun l => pyStrip l != "").length : Int) = _
  exact congrArg (fun l : List String => (l.length : Int))
    (List.filter_congr fun l _ => strip_ne_iff_any l)

/-- C7. `vl_count` returns −1 exactly on an unreachable endpoint; for
every received response it returns the number of non-blank lines (lines
with at least one non-whitespace character), so a response of only blank
lines returns 0, and every valid count is ≥ 0 — distinguishable from
the −1 sentinel. -/
theorem c7_vl_count :
    vl_count none = -1 ∧
    (∀ b, vl_count (some b) =
      (((pySplitlines b).filter fun l => l.data.any fun c => !isPySpace c).length : Int)) ∧
    vl_count (some "\n  \n\t \n") = 0 ∧
    (∀ b, 0 ≤ vl_count (some b)) := by
  refine ⟨rfl, vl_count_some_eq, by decide, ?_⟩
  intro b
  rw [vl_count_some_eq]
  exact Int.natCast_nonneg _

/-- C9. `vl_count` never parses response lines as JSON: the count equals
`countP` of "has a non-whitespace character" over the split lines, with
no JSON predicate involved, so malformed or non-JSON lines are counted —
a response of one JSON object line, one plain-text line and one bare
number counts 3. -/
theorem c9_vl_count_counts_non_json :
    (∀ b, vl_count (some b) =
      (((pySplitlines b).countP fun l => l.data.any fun c => !isPySpace c) : Int)) ∧
    vl_count (some "\x7b\"event\": 1\x7d\nnot json at all\n42") = 3 := by
  refine ⟨?_, by decide⟩
  intro b
  rw [vl_count_some_eq, List.countP_eq_length_filter]

/-! ## The convoy-landed predicate (`convoy_landed`) -/

/-- One iteration of `convoy_landed`'s loop over the parsed listing:
`title = (c.get("title", "") + c.get("name", "")).lower()`,
`status = c.get("status", "").lower()`, matched when the title contains
`"crypto"` or `"tales"` and the status is `"closed"` or `"landed"`.  A
non-dict element, a non-string title/name (the `+` raises) or a
non-string status (`.lower()` raises) raise, which the surrounding
`except` turns into `False`. -/
def convoyMatch (c : JValue) : Except String Bool :=
  match c with
  | .obj fs =>
      match (jLookup fs "title").getD (.str ""), (jLookup fs "name").getD (.str "") with
      | .str t, .str nm =>
          match (jLookup fs "status").getD (.str "") with
          | .str st =>
              let title := pyLower (t ++ nm)
              let status := pyLower st
              .ok ((pyContains title "crypto" || pyContains title "tales") &&
                (status == "closed" || status == "landed"))
          | _ => .error "AttributeError"
      | _, _ => .error "TypeError"
  | _ => .error "AttributeError"

/-- The `for c in convoys:` loop: stop at the first match; a raising
element aborts the loop with the exception. -/
def convoyScan : List JValue → Except String Bool
  | [] => .ok false
  | c :: rest =>
      match convoyMatch c with
      | .error e => .error e
      | .ok true => .ok true
      | .ok false => convoyScan rest

/-- Model of `convoy_landed()`: `rc` and `output` are the exit code and
output of `gt convoy list --all --json`, `parse` the `json.loads`
oracle.  Returns `False` on a nonzero exit code or blank output, on any
parse failure, on a non-list top-level value, and when no element
matches. -/
def convoy_landed (rc : Int) (output : String) (parse : String → Except String JValue) :
    Bool :=
  if rc != 0 || pyStrip output == "" then false
  else
    match parse output with
    | .error _ => false
    | .ok j =>
        match j with
        | .arr cs =>
            match convoyScan cs with
            | .ok b => b
            | .error _ => false
        | _ => false

/-- C8. The convoy-landed predicate returns true for the listing
`[{"title": "The Crypto Tales", "status": "landed"}]`, false for
`[{"title": "Other", "status": "open"}]`, false (without raising — the
model is a total function) on any parse failure and on any top-level
value that is not an array, false on a nonzero exit code, and false on
blank listing output. -/
theorem c8_convoy_landed (out : String) (parse : String → Except String JValue)
    (rc : Int) (e : String) (j : JValue) :
    convoy_landed 0 "x" (fun _ => Except.ok (JValue.arr [JValue.obj
      [("title", JValue.str "The Crypto Tales"), ("status", JValue.str "landed")]])) =
      true ∧
    convoy_landed 0 "x" (fun _ => Except.ok (JValue.arr [JValue.obj
      [("title", JValue.str "Other"), ("status", JValue.str "open")]])) = false ∧
    (parse out = .error e → convoy_landed 0 out parse = false) ∧
    (parse out = .ok j → isArr j = false → convoy_landed 0 out parse = false) ∧
    (rc ≠ 0 → convoy_landed rc out parse = false) ∧
    convoy_landed rc "" parse = false := by
  refine ⟨by decide, by decide, ?_, ?_, ?_, ?_⟩
  · intro hp
    by_cases hs : pyStrip out = ""
    · simp [convoy_landed, hs]
    · simp [convoy_landed, hs, hp]
  · intro hj hja
    by_cases hs : pyStrip out = ""
    · simp [convoy_landed, hs]
    · cases j with
      | arr xs => simp [isArr] at hja
      | null => simp [convoy_landed, hs, hj]
      | bool b => simp [convoy_landed, hs, hj]
      | num n => simp [convoy_landed, hs, hj]
      | str s => simp [convoy_landed, hs, hj]
      | obj fs => simp [convoy_landed, hs, hj]
  · intro hrc
    simp [convoy_landed, hrc]
  · simp [convoy_landed, show pyStrip "" = "" from rfl]

/-- Witness for `c8_convoy_landed`: a parse failure yields false. -/
theorem c8_convoy_landed_witness :
    convoy_landed 0 "bad" (fun _ => Except.error "json error") = false :=
  (c8_convoy_landed "bad" (fun _ => Except.error "json error") 1 "json error"
    JValue.null).2.2.1 rfl
